import Mathlib

/-!
# bitHuman streaming wire protocol — verification development

Shallow embedding of the bitHuman Java streaming client
(`BithumanStreamingClient` and its inner `AvatarWebSocket` handler) and of
the tagged binary wire format it speaks with the avatar streaming server.

Bytes are modelled as natural numbers (wire bytes are `< 256`); multi-byte
fields are big-endian, exactly as `ByteBuffer.order(BIG_ENDIAN)` reads them.
IEEE-754 fields (`fps : float32`, `timestamp : float64`) are carried by
their bit patterns — the code only moves their bytes, never computes with
them, so a 32- or 64-bit word is a faithful representation. Java's signed
32-bit `int` is modelled by `toInt32` where its sign affects control flow.
-/

namespace Bithuman

/-- Big-endian value of a byte list, as successive `ByteBuffer` reads
accumulate it: each byte shifts the accumulator left by 8 bits. -/
def beVal (bs : List Nat) : Nat :=
  bs.foldl (fun a b => 256 * a + b) 0

/-- Big-endian encoding of `v` into exactly `n` bytes (most significant
first); the value is taken modulo `2^(8*n)`. -/
def beBytes : Nat → Nat → List Nat
  | 0, _ => []
  | n + 1, v => beBytes n (v / 256) ++ [v % 256]

/-- Java's two's-complement reinterpretation of a 32-bit word as a signed
`int`, as `ByteBuffer.getInt` produces it. -/
def toInt32 (w : Nat) : Int :=
  if w % 2 ^ 32 < 2 ^ 31 then ((w % 2 ^ 32 : Nat) : Int)
  else ((w % 2 ^ 32 : Nat) : Int) - 2 ^ 32

@[simp] theorem beBytes_length (n v : Nat) : (beBytes n v).length = n := by
  induction n generalizing v with
  | zero => rfl
  | succ n ih => simp [beBytes, ih]

theorem beVal_append (xs ys : List Nat) :
    beVal (xs ++ ys) = ys.foldl (fun a b => 256 * a + b) (beVal xs) := by
  simp [beVal, List.foldl_append]

theorem beVal_append_singleton (xs : List Nat) (b : Nat) :
    beVal (xs ++ [b]) = 256 * beVal xs + b := by
  simp [beVal_append]

theorem beVal_beBytes (n v : Nat) (h : v < 2 ^ (8 * n)) :
    beVal (beBytes n v) = v := by
  induction n generalizing v with
  | zero =>
    interval_cases v
    rfl
  | succ n ih =>
    have hdiv : v / 256 < 2 ^ (8 * n) := by
      have h256 : (256 : Nat) = 2 ^ 8 := by norm_num
      have : v < 2 ^ (8 * n) * 256 := by
        calc v < 2 ^ (8 * (n + 1)) := h
        _ = 2 ^ (8 * n) * 2 ^ 8 := by ring
        _ = 2 ^ (8 * n) * 256 := by norm_num
      exact Nat.div_lt_of_lt_mul (by omega)
    calc beVal (beBytes (n + 1) v)
        = beVal (beBytes n (v / 256) ++ [v % 256]) := rfl
      _ = 256 * beVal (beBytes n (v / 256)) + v % 256 := beVal_append_singleton _ _
      _ = 256 * (v / 256) + v % 256 := by rw [ih _ hdiv]
      _ = v := by omega

theorem beBytes_mem_lt (n v : Nat) : ∀ b ∈ beBytes n v, b < 256 := by
  induction n generalizing v with
  | zero => intro b hb; simp [beBytes] at hb
  | succ n ih =>
    intro b hb
    simp only [beBytes, List.mem_append, List.mem_singleton] at hb
    rcases hb with hb | hb
    · exact ih _ b hb
    · subst hb; exact Nat.mod_lt _ (by norm_num)

/-! ## Decoder — translation of `AvatarWebSocket` (inner class of
`BithumanStreamingClient`)

```java
public void onMessage(ByteBuffer buffer) {
    if (buffer.remaining() < 1) return;
    buffer.order(ByteOrder.BIG_ENDIAN);
    byte tag = buffer.get();
    switch (tag) {
        case TAG_VIDEO -> parseVideoFrame(buffer);
        case TAG_AUDIO -> parseAudioChunk(buffer);
        case TAG_END_OF_SPEECH -> onEndOfSpeech();
        default -> log.warn("Unknown binary tag: ...");
    }
}
```
-/

/-- Outcome of handling one inbound binary message.  `video`/`audio` carry
the exact arguments handed to the `onVideoFrame` / `onAudioChunk` consumer
callbacks (`fpsBits`/`tsBits` are the IEEE-754 bit patterns).
`ignoredEmpty` is the silent `return` on an empty buffer; `crash` is the
`NegativeArraySizeException` thrown by `new byte[len]` when a declared
length ≥ 2^31 is read as a negative Java `int`. -/
inductive DecodeResult where
  | video (width height fpsBits : Nat) (jpegLen : Nat) (tsBits : Nat) (jpeg : List Nat)
  | audio (sampleRate channels : Nat) (pcmLen : Nat) (tsBits : Nat) (pcm : List Nat)
  | endOfSpeech
  | unknownTag (tag : Nat)
  | ignoredEmpty
  | truncatedHeader
  | truncatedPayload
  | crash
deriving DecidableEq, Repr

/-- Translation of `AvatarWebSocket.parseVideoFrame`.  `buf` is the buffer
contents after the tag byte has been consumed.  Header after the tag is
20 bytes: u16 width, u16 height, f32 fps, i32 jpegLen, f64 timestamp. -/
def parseVideoFrame (buf : List Nat) : DecodeResult :=
  if buf.length < 20 then .truncatedHeader
  else
    let width := beVal (buf.take 2)
    let height := beVal ((buf.drop 2).take 2)
    let fpsBits := beVal ((buf.drop 4).take 4)
    let jpegLen : Int := toInt32 (beVal ((buf.drop 8).take 4))
    let tsBits := beVal ((buf.drop 12).take 8)
    let payload := buf.drop 20
    if (payload.length : Int) < jpegLen then .truncatedPayload
    else if jpegLen < 0 then .crash
    else .video width height fpsBits jpegLen.toNat tsBits (payload.take jpegLen.toNat)

/-- Translation of `AvatarWebSocket.parseAudioChunk`.  Header after the tag
is 17 bytes: u32 sample_rate, u8 channels, i32 pcmLen, f64 timestamp. -/
def parseAudioChunk (buf : List Nat) : DecodeResult :=
  if buf.length < 17 then .truncatedHeader
  else
    let sampleRate := beVal (buf.take 4)
    let channels := beVal ((buf.drop 4).take 1)
    let pcmLen : Int := toInt32 (beVal ((buf.drop 5).take 4))
    let tsBits := beVal ((buf.drop 9).take 8)
    let payload := buf.drop 17
    if (payload.length : Int) < pcmLen then .truncatedPayload
    else if pcmLen < 0 then .crash
    else .audio sampleRate channels pcmLen.toNat tsBits (payload.take pcmLen.toNat)

/-- Wire tag bytes (`TAG_VIDEO`, `TAG_AUDIO`, `TAG_END_OF_SPEECH`). -/
def TAG_VIDEO : Nat := 0x01
def TAG_AUDIO : Nat := 0x02
def TAG_END_OF_SPEECH : Nat := 0x03

/-- Translation of `AvatarWebSocket.onMessage(ByteBuffer)`: empty buffers
are silently ignored; otherwise the first byte selects the parser. -/
def onMessage (msg : List Nat) : DecodeResult :=
  match msg with
  | [] => .ignoredEmpty
  | tag :: rest =>
    if tag = TAG_VIDEO then parseVideoFrame rest
    else if tag = TAG_AUDIO then parseAudioChunk rest
    else if tag = TAG_END_OF_SPEECH then .endOfSpeech
    else .unknownTag tag

/-- The consumer-visible events dispatched by the decoder. -/
inductive CallbackEvent where
  | videoFrame (width height fpsBits tsBits : Nat) (jpeg : List Nat)
  | audioChunk (sampleRate channels tsBits : Nat) (pcm : List Nat)
  | endOfSpeechEvt
deriving DecidableEq, Repr

/-- Which consumer callback (if any) a decode outcome invokes: `video` →
`onVideoFrame`, `audio` → `onAudioChunk`, tag `0x03` → `onEndOfSpeech`;
every other outcome invokes none (the handler just logs or returns). -/
def callbackOf : DecodeResult → Option CallbackEvent
  | .video w h f _ t j => some (.videoFrame w h f t j)
  | .audio s c _ t p => some (.audioChunk s c t p)
  | .endOfSpeech => some .endOfSpeechEvt
  | _ => none

/-- Whether a decode outcome is one of the decode-failure cases the code
logs (`truncated...`, unknown tag) or a thrown exception. -/
def isDecodeFailure : DecodeResult → Bool
  | .truncatedHeader => true
  | .truncatedPayload => true
  | .unknownTag _ => true
  | .crash => true
  | _ => false

/-- The events a sequence of inbound binary messages dispatches to the
consumer, in strict arrival order (the handler is stateless over the
message contents: each message is decoded independently). -/
def dispatchEvents (msgs : List (List Nat)) : List CallbackEvent :=
  msgs.filterMap (fun m => callbackOf (onMessage m))

/-- Client-session counters and connection flag touched by inbound
messages: `videoFramesReceived` / `audioChunksReceived` (incremented by
the two callbacks), the `doneLatch` (released by `onEndOfSpeech`), and the
`connected` flag (cleared only by `onClose`, never by `onMessage`). -/
structure ClientState where
  videoFramesReceived : Nat
  audioChunksReceived : Nat
  done : Bool
  connected : Bool
deriving DecidableEq, Repr

/-- State effect of handling one inbound binary message: exactly what the
three callbacks mutate; all non-callback outcomes leave the state alone
and the handler never closes the connection. -/
def applyMessage (st : ClientState) (msg : List Nat) : ClientState :=
  match onMessage msg with
  | .video _ _ _ _ _ _ => { st with videoFramesReceived := st.videoFramesReceived + 1 }
  | .audio _ _ _ _ _ => { st with audioChunksReceived := st.audioChunksReceived + 1 }
  | .endOfSpeech => { st with done := true }
  | _ => st

/-! ## Encoder — the server side is not part of this repository's sources;
modelled from the spec's wire table. -/

/-- Modelled from the spec: the server-side `encode_video` operation (the
Python streaming server is not in this repository).  Wire table: tag `0x01`
+ big-endian u16 width + u16 height + f32 fps (bit pattern) + u32
jpeg_length + f64 timestamp (bit pattern) + jpeg bytes. -/
def encode_video (width height fpsBits tsBits : Nat) (jpeg : List Nat) : List Nat :=
  TAG_VIDEO ::
    (beBytes 2 width ++ beBytes 2 height ++ beBytes 4 fpsBits ++
      beBytes 4 jpeg.length ++ beBytes 8 tsBits ++ jpeg)

/-- Modelled from the spec: the server-side `encode_audio` operation (the
Python streaming server is not in this repository).  Wire table: tag `0x02`
+ big-endian u32 sample_rate + u8 channels + u32 pcm_length + f64
timestamp (bit pattern) + pcm bytes. -/
def encode_audio (sampleRate channels tsBits : Nat) (pcm : List Nat) : List Nat :=
  TAG_AUDIO ::
    (beBytes 4 sampleRate ++ beBytes 1 channels ++ beBytes 4 pcm.length ++
      beBytes 8 tsBits ++ pcm)

/-! ## Audio chunking and the paced send loop —
translation of `BithumanStreamingClient.streamAudioFile`

```java
private static final int SAMPLE_RATE = 16_000;
private static final int CHANNELS = 1;
private static final int BITS_PER_SAMPLE = 16;
private static final int CHUNK_MS = 100;
private static final int SAMPLES_PER_CHUNK = SAMPLE_RATE * CHUNK_MS / 1000;
private static final int BYTES_PER_CHUNK = SAMPLES_PER_CHUNK * (BITS_PER_SAMPLE / 8);

byte[] buf = new byte[BYTES_PER_CHUNK];
while ((read = pcmStream.read(buf, 0, buf.length)) > 0 && connected.get()) {
    byte[] chunk = (read == buf.length) ? buf : Arrays.copyOf(buf, read);
    ws.send(chunk);
    audioChunksSent.incrementAndGet();
    Thread.sleep(CHUNK_MS);
}
sendJson("end");
```
-/

def SAMPLE_RATE : Nat := 16000
def CHANNELS : Nat := 1
def BITS_PER_SAMPLE : Nat := 16
def CHUNK_MS : Nat := 100
def SAMPLES_PER_CHUNK : Nat := SAMPLE_RATE * CHUNK_MS / 1000
def BYTES_PER_CHUNK : Nat := SAMPLES_PER_CHUNK * (BITS_PER_SAMPLE / 8)

/-- The send loop over an in-memory PCM buffer: each iteration reads up to
`C` bytes from the front of the buffer; the loop continues while the read
produced data AND the `connected` flag (sampled once per iteration, here
indexed by the iteration counter `i`) is still set.  Returns the list of
chunks actually sent, in order. -/
def sendLoopFrom (C : Nat) (conn : Nat → Bool) (buf : List Nat) (i : Nat) :
    List (List Nat) :=
  if hC : C = 0 then []
  else if hb : buf = [] then []
  else if conn i then buf.take C :: sendLoopFrom C conn (buf.drop C) (i + 1)
  else []
termination_by buf.length
decreasing_by
  have hlen : buf.length ≠ 0 := fun h => hb (List.eq_nil_of_length_eq_zero h)
  simp only [List.length_drop]
  omega

/-- The chunk sequence produced when the connection stays open for the whole
buffer: the pure chunking function of §4.2. -/
def streamChunks (C : Nat) (buf : List Nat) : List (List Nat) :=
  sendLoopFrom C (fun _ => true) buf 0

/-- One client-to-server action of the streaming session. -/
inductive ClientEvent where
  | sendBinary (data : List Nat)
  | sleepMs (ms : Nat)
  | sendText (s : String)
deriving DecidableEq, Repr

/-- The JSON text `sendJson("end")` produces via Gson: a one-field object
whose `type` property is `end`. -/
def endJson : String := "\x7b\"type\":\"end\"\x7d"

/-- The action trace of the send loop: per iteration a binary send followed
by the `Thread.sleep(CHUNK_MS)` pacing delay. -/
def streamEventsFrom (C : Nat) (conn : Nat → Bool) (buf : List Nat) (i : Nat) :
    List ClientEvent :=
  (sendLoopFrom C conn buf i).flatMap
    (fun c => [ClientEvent.sendBinary c, ClientEvent.sleepMs CHUNK_MS])

/-- The full client-to-server trace of `streamAudioFile`: the paced chunk
sends, then (after the loop exits) the single `sendJson("end")` text
message. -/
def streamAudioFile (conn : Nat → Bool) (pcm : List Nat) : List ClientEvent :=
  streamEventsFrom BYTES_PER_CHUNK conn pcm 0 ++ [ClientEvent.sendText endJson]

/-- Binary payload of a trace event, if it is a binary send. -/
def binaryData : ClientEvent → Option (List Nat)
  | .sendBinary d => some d
  | _ => none

/-- Whether a trace event is a text (JSON control) message. -/
def isTextMsg : ClientEvent → Bool
  | .sendText _ => true
  | _ => false

/-! ## Session lifecycle — translation of `BithumanStreamingClient.run`

```java
ws.connectBlocking(10, TimeUnit.SECONDS);
if (!connected.get()) throw new IOException("Failed to connect to server");
CompletableFuture<Void> audioFuture = CompletableFuture.runAsync(() -> streamAudioFile());
boolean finished = doneLatch.await(120, TimeUnit.SECONDS);
if (!finished) log.warn("Timed out waiting for end-of-speech");
audioFuture.cancel(true);
ws.closeBlocking();
```
-/

def CONNECT_TIMEOUT_SECONDS : Nat := 10
def READ_TIMEOUT_SECONDS : Nat := 120

/-- Result of `connectBlocking(10, SECONDS)` followed by the `connected`
check: `handshakeSeconds` is the time at which the WebSocket handshake
completes (`none` if it never does); the session is connected iff that
happens within the timeout. -/
def connectBlocking (handshakeSeconds : Option Nat) : Bool :=
  match handshakeSeconds with
  | some t => decide (t ≤ CONNECT_TIMEOUT_SECONDS)
  | none => false

/-- Outcome of `run()`: either the thrown `IOException` or a connected
session whose client-to-server trace is the streamed utterance. -/
inductive RunResult where
  | failed (msg : String)
  | session (events : List ClientEvent)
deriving DecidableEq, Repr

/-- The connect phase of `run()` and the streaming it guards: the audio
streaming future is only started after the connectivity check passes. -/
def runSession (handshakeSeconds : Option Nat) (pcm : List Nat) : RunResult :=
  if connectBlocking handshakeSeconds then
    .session (streamAudioFile (fun _ => true) pcm)
  else .failed "Failed to connect to server"

/-- Outcome of the `doneLatch.await(120, SECONDS)` wait phase of `run()`:
whether the timeout warning was emitted, whether the transport was closed
(`ws.closeBlocking()` runs unconditionally after the wait), and how many
seconds the session waited. -/
structure SessionEnd where
  timedOut : Bool
  transportClosed : Bool
  waitedSeconds : Nat
deriving DecidableEq, Repr

/-- The wait-teardown phase of `run()`: `latchReleaseSeconds` is the time at
which `doneLatch` is released (by `onEndOfSpeech` or `onClose`); `none` if
it never is.  The wait is bounded by `READ_TIMEOUT_SECONDS`; on timeout
the warning is emitted; the transport is then closed in every case. -/
def awaitCompletion (latchReleaseSeconds : Option Nat) : SessionEnd :=
  match latchReleaseSeconds with
  | some t =>
    if t ≤ READ_TIMEOUT_SECONDS then ⟨false, true, t⟩
    else ⟨true, true, READ_TIMEOUT_SECONDS⟩
  | none => ⟨true, true, READ_TIMEOUT_SECONDS⟩

/-! ## Round-trip: decoding an encoded frame recovers the fields -/

theorem toInt32_of_lt (w : Nat) (h : w < 2 ^ 31) : toInt32 w = (w : Int) := by
  have h32 : w % 2 ^ 32 = w := Nat.mod_eq_of_lt (by omega)
  rw [toInt32, h32, if_pos h]

theorem parse_encode_video (w h f ts : Nat) (jpeg : List Nat)
    (hw : w < 2 ^ 16) (hh : h < 2 ^ 16) (hf : f < 2 ^ 32) (hts : ts < 2 ^ 64)
    (hlen : jpeg.length < 2 ^ 31) :
    onMessage (encode_video w h f ts jpeg) =
      .video w h f jpeg.length ts jpeg := by
  have e : encode_video w h f ts jpeg =
      TAG_VIDEO :: (beBytes 2 w ++ (beBytes 2 h ++ (beBytes 4 f ++
        (beBytes 4 jpeg.length ++ (beBytes 8 ts ++ jpeg))))) := by
    simp [encode_video, List.append_assoc]
  rw [e]
  have honm : onMessage (TAG_VIDEO :: (beBytes 2 w ++ (beBytes 2 h ++ (beBytes 4 f ++
      (beBytes 4 jpeg.length ++ (beBytes 8 ts ++ jpeg)))))) =
      parseVideoFrame (beBytes 2 w ++ (beBytes 2 h ++ (beBytes 4 f ++
        (beBytes 4 jpeg.length ++ (beBytes 8 ts ++ jpeg))))) := by
    simp [onMessage]
  rw [honm]
  generalize hbuf : beBytes 2 w ++ (beBytes 2 h ++ (beBytes 4 f ++
      (beBytes 4 jpeg.length ++ (beBytes 8 ts ++ jpeg)))) = buf
  have hlen0 : buf.length = 20 + jpeg.length := by
    simp only [← hbuf, List.length_append, beBytes_length]
    omega
  have t0 : buf.take 2 = beBytes 2 w := by
    rw [← hbuf]; exact List.take_left' (beBytes_length 2 w)
  have d2 : buf.drop 2 = beBytes 2 h ++ (beBytes 4 f ++
      (beBytes 4 jpeg.length ++ (beBytes 8 ts ++ jpeg))) := by
    rw [← hbuf]; exact List.drop_left' (beBytes_length 2 w)
  have t2 : (buf.drop 2).take 2 = beBytes 2 h := by
    rw [d2]; exact List.take_left' (beBytes_length 2 h)
  have d4 : buf.drop 4 = beBytes 4 f ++ (beBytes 4 jpeg.length ++ (beBytes 8 ts ++ jpeg)) := by
    show buf.drop (2 + 2) = _
    rw [← List.drop_drop, d2]
    exact List.drop_left' (beBytes_length 2 h)
  have t4 : (buf.drop 4).take 4 = beBytes 4 f := by
    rw [d4]; exact List.take_left' (beBytes_length 4 f)
  have d8 : buf.drop 8 = beBytes 4 jpeg.length ++ (beBytes 8 ts ++ jpeg) := by
    show buf.drop (4 + 4) = _
    rw [← List.drop_drop, d4]
    exact List.drop_left' (beBytes_length 4 f)
  have t8 : (buf.drop 8).take 4 = beBytes 4 jpeg.length := by
    rw [d8]; exact List.take_left' (beBytes_length 4 jpeg.length)
  have d12 : buf.drop 12 = beBytes 8 ts ++ jpeg := by
    show buf.drop (8 + 4) = _
    rw [← List.drop_drop, d8]
    exact List.drop_left' (beBytes_length 4 jpeg.length)
  have t12 : (buf.drop 12).take 8 = beBytes 8 ts := by
    rw [d12]; exact List.take_left' (beBytes_length 8 ts)
  have d20 : buf.drop 20 = jpeg := by
    show buf.drop (12 + 8) = _
    rw [← List.drop_drop, d12]
    exact List.drop_left' (beBytes_length 8 ts)
  have hjl : beVal ((buf.drop 8).take 4) = jpeg.length := by
    rw [t8]; exact beVal_beBytes 4 jpeg.length (by norm_num at hlen ⊢; omega)
  simp only [parseVideoFrame, hjl, t0, t2, t4, t12, d20,
    toInt32_of_lt jpeg.length hlen]
  rw [if_neg (by omega), if_neg (by simp), if_neg (by simp)]
  rw [beVal_beBytes 2 w (by norm_num at hw ⊢; omega),
    beVal_beBytes 2 h (by norm_num at hh ⊢; omega),
    beVal_beBytes 4 f (by norm_num at hf ⊢; omega),
    beVal_beBytes 8 ts (by norm_num at hts ⊢; omega)]
  simp

theorem parse_encode_audio (sr ch ts : Nat) (pcm : List Nat)
    (hsr : sr < 2 ^ 32) (hch : ch < 2 ^ 8) (hts : ts < 2 ^ 64)
    (hlen : pcm.length < 2 ^ 31) :
    onMessage (encode_audio sr ch ts pcm) =
      .audio sr ch pcm.length ts pcm := by
  have e : encode_audio sr ch ts pcm =
      TAG_AUDIO :: (beBytes 4 sr ++ (beBytes 1 ch ++
        (beBytes 4 pcm.length ++ (beBytes 8 ts ++ pcm)))) := by
    simp [encode_audio, List.append_assoc]
  rw [e]
  have honm : onMessage ( TAG_AUDIO :: (beBytes 4 sr ++ (beBytes 1 ch ++
      (beBytes 4 pcm.length ++ (beBytes 8 ts ++ pcm))))) =
      parseAudioChunk (beBytes 4 sr ++ (beBytes 1 ch ++
        (beBytes 4 pcm.length ++ (beBytes 8 ts ++ pcm)))) := by
    simp [onMessage, TAG_AUDIO, TAG_VIDEO, TAG_END_OF_SPEECH]
  rw [honm]
  generalize hbuf : beBytes 4 sr ++ (beBytes 1 ch ++
      (beBytes 4 pcm.length ++ (beBytes 8 ts ++ pcm))) = buf
  have hlen0 : buf.length = 17 + pcm.length := by
    simp only [← hbuf, List.length_append, beBytes_length]
    omega
  have t0 : buf.take 4 = beBytes 4 sr := by
    rw [← hbuf]; exact List.take_left' (beBytes_length 4 sr)
  have d4 : buf.drop 4 = beBytes 1 ch ++ (beBytes 4 pcm.length ++ (beBytes 8 ts ++ pcm)) := by
    rw [← hbuf]; exact List.drop_left' (beBytes_length 4 sr)
  have t4 : (buf.drop 4).take 1 = beBytes 1 ch := by
    rw [d4]; exact List.take_left' (beBytes_length 1 ch)
  have d5 : buf.drop 5 = beBytes 4 pcm.length ++ (beBytes 8 ts ++ pcm) := by
    show buf.drop (4 + 1) = _
    rw [← List.drop_drop, d4]
    exact List.drop_left' (beBytes_length 1 ch)
  have t5 : (buf.drop 5).take 4 = beBytes 4 pcm.length := by
    rw [d5]; exact List.take_left' (beBytes_length 4 pcm.length)
  have d9 : buf.drop 9 = beBytes 8 ts ++ pcm := by
    show buf.drop (5 + 4) = _
    rw [← List.drop_drop, d5]
    exact List.drop_left' (beBytes_length 4 pcm.length)
  have t9 : (buf.drop 9).take 8 = beBytes 8 ts := by
    rw [d9]; exact List.take_left' (beBytes_length 8 ts)
  have d17 : buf.drop 17 = pcm := by
    show buf.drop (9 + 8) = _
    rw [← List.drop_drop, d9]
    exact List.drop_left' (beBytes_length 8 ts)
  have hpl : beVal ((buf.drop 5).take 4) = pcm.length := by
    rw [t5]; exact beVal_beBytes 4 pcm.length (by norm_num at hlen ⊢; omega)
  simp only [parseAudioChunk, hpl, t0, t4, t9, d17,
    toInt32_of_lt pcm.length hlen]
  rw [if_neg (by omega), if_neg (by simp), if_neg (by simp)]
  rw [beVal_beBytes 4 sr (by norm_num at hsr ⊢; omega),
    beVal_beBytes 1 ch (by norm_num at hch ⊢; omega),
    beVal_beBytes 8 ts (by norm_num at hts ⊢; omega)]
  simp

/-- C1 — Codec round-trip: for every video frame tuple (width, height,
fps, timestamp, jpeg) with jpeg payload length from 0 up to 1 MiB, and for
every audio chunk tuple (sample_rate, channels, timestamp, pcm) with pcm
payload length from 0 up to 65536 bytes, decoding the encoded tagged
message (tag 0x01 for video, 0x02 for audio, all multi-byte fields
big-endian, layout per the wire table) yields back exactly the original
field values and the original payload bytes.  `fps` and `timestamp` are
carried by their IEEE-754 bit patterns (f32/f64): the codec only moves
their bytes. -/
theorem c1_codec_round_trip :
    (∀ (w h f ts : Nat) (jpeg : List Nat),
      w < 2 ^ 16 → h < 2 ^ 16 → f < 2 ^ 32 → ts < 2 ^ 64 →
      jpeg.length ≤ 1048576 →
      onMessage (encode_video w h f ts jpeg) = .video w h f jpeg.length ts jpeg) ∧
    (∀ (sr ch ts : Nat) (pcm : List Nat),
      sr < 2 ^ 32 → ch < 2 ^ 8 → ts < 2 ^ 64 →
      pcm.length ≤ 65536 →
      onMessage (encode_audio sr ch ts pcm) = .audio sr ch pcm.length ts pcm) := by
  constructor
  · intro w h f ts jpeg hw hh hf hts hlen
    exact parse_encode_video w h f ts jpeg hw hh hf hts (by norm_num at hlen ⊢; omega)
  · intro sr ch ts pcm hsr hch hts hlen
    exact parse_encode_audio sr ch ts pcm hsr hch hts (by norm_num at hlen ⊢; omega)

/-- C1 witness: the round trip evaluated at one concrete video frame and
one concrete audio chunk. -/
theorem c1_codec_round_trip_witness :
    onMessage (encode_video 640 480 1103626240 4713316519104146570 [7, 8, 9]) =
      .video 640 480 1103626240 3 4713316519104146570 [7, 8, 9] ∧
    onMessage (encode_audio 16000 1 4713316519104146570 [1, 2]) =
      .audio 16000 1 2 4713316519104146570 [1, 2] :=
  ⟨c1_codec_round_trip.1 640 480 1103626240 4713316519104146570 [7, 8, 9]
      (by norm_num) (by norm_num) (by norm_num) (by norm_num) (by norm_num),
    c1_codec_round_trip.2 16000 1 4713316519104146570 [1, 2]
      (by norm_num) (by norm_num) (by norm_num) (by norm_num)⟩

/-- C3 counterexample — the claim as stated fails: a complete 21-byte video
header declaring a jpeg length of `2^31` (which certainly exceeds the 0
payload bytes remaining) does NOT yield `TruncatedPayloadError`.  Java
reads the u32 length field into a signed `int`, so `2^31` becomes
negative, the `remaining < jpegLen` truncation check is skipped, and
`new byte[jpegLen]` throws `NegativeArraySizeException`. -/
theorem c3_truncation_counterexample :
    ([1, 0, 0, 0, 0, 0, 0, 0, 0, 128, 0, 0, 0,
        0, 0, 0, 0, 0, 0, 0, 0] : List Nat).length = 21 ∧
    beVal (([1, 0, 0, 0, 0, 0, 0, 0, 0, 128, 0, 0, 0,
        0, 0, 0, 0, 0, 0, 0, 0] : List Nat).drop 9 |>.take 4) = 2 ^ 31 ∧
    onMessage [1, 0, 0, 0, 0, 0, 0, 0, 0, 128, 0, 0, 0,
        0, 0, 0, 0, 0, 0, 0, 0] ≠ .truncatedPayload ∧
    onMessage [1, 0, 0, 0, 0, 0, 0, 0, 0, 128, 0, 0, 0,
        0, 0, 0, 0, 0, 0, 0, 0] = .crash := by
  refine ⟨rfl, by decide, by decide, by decide⟩

/-- C3 amended — truncation detection, restricted to declared payload
lengths below `2^31` (those representable as a nonnegative Java `int`):
for a message tagged 0x01 (video) shorter than the 21-byte fixed header,
or tagged 0x02 (audio) shorter than 18 bytes, decode yields
`TruncatedHeaderError`; if the header is complete and the declared payload
length (below `2^31`) exceeds the bytes remaining after the header, decode
yields `TruncatedPayloadError`; declared lengths ≥ `2^31` instead crash
the handler (see the counterexample).  Neither outcome invokes a consumer
callback. -/
theorem c3_truncation_detection :
    (∀ rest : List Nat, rest.length < 20 →
      onMessage (TAG_VIDEO :: rest) = .truncatedHeader) ∧
    (∀ rest : List Nat, rest.length < 17 →
      onMessage ( TAG_AUDIO :: rest) = .truncatedHeader) ∧
    (∀ rest : List Nat, 20 ≤ rest.length →
      beVal ((rest.drop 8).take 4) < 2 ^ 31 →
      rest.length - 20 < beVal ((rest.drop 8).take 4) →
      onMessage (TAG_VIDEO :: rest) = .truncatedPayload) ∧
    (∀ rest : List Nat, 17 ≤ rest.length →
      beVal ((rest.drop 5).take 4) < 2 ^ 31 →
      rest.length - 17 < beVal ((rest.drop 5).take 4) →
      onMessage ( TAG_AUDIO :: rest) = .truncatedPayload) ∧
    callbackOf .truncatedHeader = none ∧
    callbackOf .truncatedPayload = none := by
  refine ⟨?_, ?_, ?_, ?_, rfl, rfl⟩
  · intro rest hlen
    have : onMessage (TAG_VIDEO :: rest) = parseVideoFrame rest := by
      simp [onMessage]
    rw [this, parseVideoFrame, if_pos hlen]
  · intro rest hlen
    have : onMessage ( TAG_AUDIO :: rest) = parseAudioChunk rest := by
      simp [onMessage, TAG_AUDIO, TAG_VIDEO, TAG_END_OF_SPEECH]
    rw [this, parseAudioChunk, if_pos hlen]
  · intro rest hlen h31 hexceed
    have honm : onMessage (TAG_VIDEO :: rest) = parseVideoFrame rest := by
      simp [onMessage]
    rw [honm]
    simp only [parseVideoFrame, toInt32_of_lt _ h31, List.length_drop]
    rw [if_neg (by omega), if_pos (by exact_mod_cast hexceed)]
  · intro rest hlen h31 hexceed
    have honm : onMessage ( TAG_AUDIO :: rest) = parseAudioChunk rest := by
      simp [onMessage, TAG_AUDIO, TAG_VIDEO, TAG_END_OF_SPEECH]
    rw [honm]
    simp only [parseAudioChunk, toInt32_of_lt _ h31, List.length_drop]
    rw [if_neg (by omega), if_pos (by exact_mod_cast hexceed)]

/-- C3 witness: the amended truncation detection evaluated at one concrete
input per case — a 3-byte video message, a 1-byte audio message, a
complete video header declaring 5 payload bytes with none present, and a
complete audio header declaring 3 payload bytes with none present. -/
theorem c3_truncation_detection_witness :
    onMessage [1, 0, 0] = .truncatedHeader ∧
    onMessage [2] = .truncatedHeader ∧
    onMessage [1, 0, 0, 0, 0, 0, 0, 0, 0, 0, 0, 0, 5,
        0, 0, 0, 0, 0, 0, 0, 0] = .truncatedPayload ∧
    onMessage [2, 0, 0, 62, 128, 1, 0, 0, 0, 3,
        0, 0, 0, 0, 0, 0, 0, 0] = .truncatedPayload :=
  ⟨c3_truncation_detection.1 [0, 0] (by decide),
    c3_truncation_detection.2.1 [] (by decide),
    c3_truncation_detection.2.2.1
      [0, 0, 0, 0, 0, 0, 0, 0, 0, 0, 0, 5, 0, 0, 0, 0, 0, 0, 0, 0]
      (by decide) (by decide) (by decide),
    c3_truncation_detection.2.2.2.1
      [0, 0, 62, 128, 1, 0, 0, 0, 3, 0, 0, 0, 0, 0, 0, 0, 0]
      (by decide) (by decide) (by decide)⟩

/-- C4 — Unknown-tag resilience: for every binary message whose first byte
is not one of the known tags 0x01, 0x02, 0x03, decode yields
`UnknownTagError` without throwing or crashing (the handler only logs), no
video/audio/end-of-speech callback is invoked, no session state changes,
and the connection is not terminated — a surrounding sequence of valid
messages dispatches exactly the same events with the unknown-tag message
inserted. -/
theorem c4_unknown_tag_resilience (t : Nat) (rest : List Nat)
    (_hbyte : t < 256) (h1 : t ≠ TAG_VIDEO) (h2 : t ≠ TAG_AUDIO)
    (h3 : t ≠ TAG_END_OF_SPEECH) :
    onMessage (t :: rest) = .unknownTag t ∧
    onMessage (t :: rest) ≠ .crash ∧
    callbackOf (onMessage (t :: rest)) = none ∧
    (∀ st : ClientState, applyMessage st (t :: rest) = st) ∧
    (∀ pre post : List (List Nat),
      dispatchEvents (pre ++ (t :: rest) :: post) = dispatchEvents (pre ++ post)) := by
  have h : onMessage (t :: rest) = .unknownTag t := by
    simp [onMessage, h1, h2, h3]
  refine ⟨h, ?_, ?_, ?_, ?_⟩
  · rw [h]; simp
  · rw [h]; rfl
  · intro st
    simp [applyMessage, h]
  · intro pre post
    simp [dispatchEvents, List.filterMap_append, List.filterMap_cons, h, callbackOf]

/-- C4 witness: a tag-0xFF message between two valid end-of-speech
messages is reported as an unknown tag, dispatches nothing, leaves the
state alone, and does not disturb the surrounding messages. -/
theorem c4_unknown_tag_resilience_witness :
    onMessage [255] = .unknownTag 255 ∧
    callbackOf (onMessage [255]) = none ∧
    applyMessage ⟨3, 4, false, true⟩ [255] = ⟨3, 4, false, true⟩ ∧
    dispatchEvents ([[3]] ++ [255] :: [[3]]) = dispatchEvents ([[3]] ++ [[3]]) := by
  have H := c4_unknown_tag_resilience 255 [] (by norm_num)
    (by decide) (by decide) (by decide)
  exact ⟨H.1, H.2.2.1, H.2.2.2.1 _, H.2.2.2.2 [[3]] [[3]]⟩

/-- C9 — Implicit: dispatching a zero-length binary message invokes no
consumer callback, raises no error and reports no decode failure, changes
no session state (counters, done latch, connected flag all untouched), and
the decoder is total on the empty input — the surrounding message stream
dispatches identically. -/
theorem c9_empty_message_noop :
    onMessage [] = .ignoredEmpty ∧
    callbackOf (onMessage []) = none ∧
    isDecodeFailure (onMessage []) = false ∧
    (∀ st : ClientState, applyMessage st [] = st) ∧
    (∀ st : ClientState, (applyMessage st []).connected = st.connected) ∧
    (∀ pre post : List (List Nat),
      dispatchEvents (pre ++ ([] : List Nat) :: post) = dispatchEvents (pre ++ post)) := by
  refine ⟨rfl, rfl, rfl, fun st => rfl, fun st => rfl, ?_⟩
  intro pre post
  simp [dispatchEvents, List.filterMap_append, List.filterMap_cons, onMessage, callbackOf]

/-! ## Chunker properties -/

theorem sendLoopFrom_nil (C : Nat) (conn : Nat → Bool) (i : Nat) :
    sendLoopFrom C conn [] i = [] := by
  rw [sendLoopFrom]
  by_cases hC : C = 0 <;> simp [hC]

theorem sendLoopFrom_cons (C : Nat) (conn : Nat → Bool) (buf : List Nat)
    (i : Nat) (hC : C ≠ 0) (hb : buf ≠ []) :
    sendLoopFrom C conn buf i =
      if conn i then buf.take C :: sendLoopFrom C conn (buf.drop C) (i + 1)
      else [] := by
  rw [sendLoopFrom, dif_neg hC, dif_neg hb]

theorem sendLoopFrom_ne_nil (C : Nat) (buf : List Nat) (i : Nat)
    (hC : C ≠ 0) (hb : buf ≠ []) :
    sendLoopFrom C (fun _ => true) buf i ≠ [] := by
  rw [sendLoopFrom_cons C _ buf i hC hb]
  simp

theorem sendLoopFrom_mem_size (C : Nat) (hC : 0 < C) (conn : Nat → Bool) :
    ∀ (n : Nat) (buf : List Nat), buf.length ≤ n → ∀ i,
      ∀ ch ∈ sendLoopFrom C conn buf i, 1 ≤ ch.length ∧ ch.length ≤ C := by
  intro n
  induction n with
  | zero =>
    intro buf hlen i ch hch
    have hb : buf = [] := List.eq_nil_of_length_eq_zero (by omega)
    rw [hb, sendLoopFrom_nil] at hch
    simp at hch
  | succ n ih =>
    intro buf hlen i ch hch
    by_cases hb : buf = []
    · rw [hb, sendLoopFrom_nil] at hch
      simp at hch
    · have hbl : 1 ≤ buf.length := by
        cases buf with
        | nil => exact absurd rfl hb
        | cons a l => simp
      rw [sendLoopFrom_cons C conn buf i (by omega) hb] at hch
      by_cases hc : conn i
      · rw [if_pos hc] at hch
        rcases List.mem_cons.mp hch with hch | hch
        · subst hch
          constructor
          · simp [List.length_take]
            omega
          · simp [List.length_take]
        · exact ih (buf.drop C) (by simp [List.length_drop]; omega) (i + 1) ch hch
      · rw [if_neg hc] at hch
        simp at hch

theorem sendLoop_true_join (C : Nat) (hC : 0 < C) :
    ∀ (n : Nat) (buf : List Nat), buf.length ≤ n → ∀ i,
      (sendLoopFrom C (fun _ => true) buf i).flatten = buf := by
  intro n
  induction n with
  | zero =>
    intro buf hlen i
    have hb : buf = [] := List.eq_nil_of_length_eq_zero (by omega)
    rw [hb, sendLoopFrom_nil]
    rfl
  | succ n ih =>
    intro buf hlen i
    by_cases hb : buf = []
    · rw [hb, sendLoopFrom_nil]; rfl
    · have hbl : 1 ≤ buf.length := by
        cases buf with
        | nil => exact absurd rfl hb
        | cons a l => simp
      rw [sendLoopFrom_cons C _ buf i (by omega) hb, if_pos rfl,
        List.flatten_cons, ih (buf.drop C) (by simp [List.length_drop]; omega) (i + 1),
        List.take_append_drop]

theorem sendLoop_true_length (C : Nat) (hC : 0 < C) :
    ∀ (n : Nat) (buf : List Nat), buf.length ≤ n → ∀ i,
      (sendLoopFrom C (fun _ => true) buf i).length = (buf.length + C - 1) / C := by
  intro n
  induction n with
  | zero =>
    intro buf hlen i
    have hb : buf = [] := List.eq_nil_of_length_eq_zero (by omega)
    rw [hb, sendLoopFrom_nil]
    simp [Nat.div_eq_of_lt (by omega : C - 1 < C)]
  | succ n ih =>
    intro buf hlen i
    by_cases hb : buf = []
    · rw [hb, sendLoopFrom_nil]
      simp [Nat.div_eq_of_lt (by omega : C - 1 < C)]
    · have hbl : 1 ≤ buf.length := by
        cases buf with
        | nil => exact absurd rfl hb
        | cons a l => simp
      rw [sendLoopFrom_cons C _ buf i (by omega) hb, if_pos rfl]
      rw [List.length_cons, ih (buf.drop C) (by simp [List.length_drop]; omega) (i + 1)]
      rw [List.length_drop]
      rcases le_or_lt buf.length C with hord | hord
      · have h1 : buf.length - C = 0 := by omega
        have h2 : buf.length + C - 1 = (buf.length - 1) + C := by omega
        rw [h1, h2, Nat.add_div_right _ hC,
          Nat.div_eq_of_lt (by omega : 0 + C - 1 < C),
          Nat.div_eq_of_lt (by omega : buf.length - 1 < C)]
      · have h2 : buf.length + C - 1 = (buf.length - C + C - 1) + C := by omega
        rw [h2, Nat.add_div_right _ hC, Nat.add_comm]

theorem sendLoop_true_dropLast (C : Nat) (hC : 0 < C) :
    ∀ (n : Nat) (buf : List Nat), buf.length ≤ n → ∀ i,
      ∀ ch ∈ (sendLoopFrom C (fun _ => true) buf i).dropLast, ch.length = C := by
  intro n
  induction n with
  | zero =>
    intro buf hlen i ch hch
    have hb : buf = [] := List.eq_nil_of_length_eq_zero (by omega)
    rw [hb, sendLoopFrom_nil] at hch
    simp at hch
  | succ n ih =>
    intro buf hlen i ch hch
    by_cases hb : buf = []
    · rw [hb, sendLoopFrom_nil] at hch
      simp at hch
    · have hbl : 1 ≤ buf.length := by
        cases buf with
        | nil => exact absurd rfl hb
        | cons a l => simp
      rw [sendLoopFrom_cons C _ buf i (by omega) hb, if_pos rfl] at hch
      by_cases hrest : sendLoopFrom C (fun _ => true) (buf.drop C) (i + 1) = []
      · rw [hrest] at hch
        simp at hch
      · rw [List.dropLast_cons_of_ne_nil hrest] at hch
        rcases List.mem_cons.mp hch with hch | hch
        · subst hch
          have hdrop : buf.drop C ≠ [] := by
            intro hd
            exact hrest (by rw [hd, sendLoopFrom_nil])
          have hCN : C < buf.length := by
            have := List.length_drop C buf
            by_contra hcon
            push_neg at hcon
            exact hdrop (List.eq_nil_of_length_eq_zero (by omega))
          simp [List.length_take]
          omega
        · exact ih (buf.drop C) (by simp [List.length_drop]; omega) (i + 1) ch hch

/-- C2 — Chunking correctness: the chunk byte-size is computed as
sample_rate × chunk_duration_ms / 1000 × 2 (= 3200 bytes for the defaults
of 16000 Hz and 100 ms), and for every PCM byte buffer of length N and
every positive chunk byte-size C the chunker yields exactly ceil(N/C)
slices, every yielded slice has length C except possibly the last (which
may be shorter), and concatenating all yielded slices in order reproduces
the original buffer exactly. -/
theorem c2_chunking_correctness :
    BYTES_PER_CHUNK = SAMPLE_RATE * CHUNK_MS / 1000 * 2 ∧
    BYTES_PER_CHUNK = 3200 ∧
    ∀ C : Nat, 0 < C → ∀ buf : List Nat,
      (streamChunks C buf).length = (buf.length + C - 1) / C ∧
      (∀ ch ∈ (streamChunks C buf).dropLast, ch.length = C) ∧
      (∀ ch ∈ streamChunks C buf, ch.length ≤ C) ∧
      (streamChunks C buf).flatten = buf := by
  refine ⟨rfl, rfl, ?_⟩
  intro C hC buf
  simp only [streamChunks]
  exact ⟨sendLoop_true_length C hC buf.length buf le_rfl 0,
    sendLoop_true_dropLast C hC buf.length buf le_rfl 0,
    fun ch hch => (sendLoopFrom_mem_size C hC _ buf.length buf le_rfl 0 ch hch).2,
    sendLoop_true_join C hC buf.length buf le_rfl 0⟩

/-- C2 witness: chunking a 3-byte buffer with the default 3200-byte chunk
size yields ceil(3/3200) = 1 slice whose concatenation is the buffer. -/
theorem c2_chunking_correctness_witness :
    (streamChunks 3200 [5, 6, 7]).length = (3 + 3200 - 1) / 3200 ∧
    (streamChunks 3200 [5, 6, 7]).flatten = [5, 6, 7] := by
  have H := c2_chunking_correctness.2.2 3200 (by norm_num) [5, 6, 7]
  exact ⟨H.1, H.2.2.2⟩

/-- C10 — Implicit outbound chunk-size invariant: every binary audio
message the client send loop emits while streaming an utterance — under
any connection behaviour, including buffers whose length is not a multiple
of the chunk size — has length at least 1 byte and at most
BYTES_PER_CHUNK = 3200 bytes; the client never sends an empty binary
message and never packs more than one chunk into a single message. -/
theorem c10_outbound_chunk_size_invariant :
    BYTES_PER_CHUNK = 3200 ∧
    ∀ (conn : Nat → Bool) (pcm : List Nat) (d : List Nat),
      ClientEvent.sendBinary d ∈ streamAudioFile conn pcm →
      1 ≤ d.length ∧ d.length ≤ 3200 := by
  refine ⟨rfl, ?_⟩
  intro conn pcm d hmem
  simp only [streamAudioFile, streamEventsFrom, List.mem_append,
    List.mem_flatMap, List.mem_singleton] at hmem
  rcases hmem with ⟨c, hc, hd⟩ | hmem
  · simp at hd
    subst hd
    exact sendLoopFrom_mem_size BYTES_PER_CHUNK (by norm_num [BYTES_PER_CHUNK,
      SAMPLES_PER_CHUNK, SAMPLE_RATE, CHUNK_MS, BITS_PER_SAMPLE]) conn
      pcm.length pcm le_rfl 0 d hc
  · cases hmem

/-- C10 witness: streaming a 1-byte buffer sends exactly one binary
message of 1 byte, within bounds. -/
theorem c10_outbound_chunk_size_invariant_witness :
    1 ≤ ([9] : List Nat).length ∧ ([9] : List Nat).length ≤ 3200 := by
  have e : streamAudioFile (fun _ => true) [9] =
      [ClientEvent.sendBinary [9], ClientEvent.sleepMs 100,
        ClientEvent.sendText endJson] := by
    have hbpc : BYTES_PER_CHUNK = 3200 := rfl
    rw [streamAudioFile, streamEventsFrom,
      sendLoopFrom_cons _ _ _ _ (by rw [hbpc]; norm_num) (by simp), if_pos rfl]
    rw [hbpc, List.take_of_length_le (by norm_num),
      List.drop_eq_nil_of_le (by norm_num), sendLoopFrom_nil]
    rfl
  exact c10_outbound_chunk_size_invariant.2 (fun _ => true) [9] [9] (by rw [e]; simp)

/-! ## Trace lemmas for the paced send loop -/

theorem trace_filterMap_binary (l : List (List Nat)) (m : Nat) (s : String) :
    ((l.flatMap (fun c => [ClientEvent.sendBinary c, ClientEvent.sleepMs m])) ++
        [ClientEvent.sendText s]).filterMap binaryData = l := by
  induction l with
  | nil => simp [binaryData]
  | cons c l ih =>
    simp only [List.flatMap_cons, List.append_assoc, List.filterMap_append,
      List.filterMap_cons] at ih ⊢
    simp [binaryData] at ih ⊢
    exact ih

theorem trace_filter_text (l : List (List Nat)) (m : Nat) (s : String) :
    ((l.flatMap (fun c => [ClientEvent.sendBinary c, ClientEvent.sleepMs m])) ++
        [ClientEvent.sendText s]).filter isTextMsg = [ClientEvent.sendText s] := by
  induction l with
  | nil => simp [isTextMsg]
  | cons c l ih =>
    simp only [List.flatMap_cons, List.append_assoc, List.filter_append,
      List.filter_cons] at ih ⊢
    simp [isTextMsg] at ih ⊢
    exact ih

theorem trace_paced (l : List (List Nat)) (m : Nat) (s : String) :
    ∀ (j : Nat) (d : List Nat),
      ((l.flatMap (fun c => [ClientEvent.sendBinary c, ClientEvent.sleepMs m])) ++
        [ClientEvent.sendText s]).get? j = some (ClientEvent.sendBinary d) →
      ((l.flatMap (fun c => [ClientEvent.sendBinary c, ClientEvent.sleepMs m])) ++
        [ClientEvent.sendText s]).get? (j + 1) = some (ClientEvent.sleepMs m) := by
  induction l with
  | nil =>
    intro j d hj
    rcases j with _ | j
    · simp at hj
    · simp at hj
  | cons c l ih =>
    intro j d hj
    rcases j with _ | _ | j
    · rfl
    · simp at hj
    · exact ih j d hj

/-- C5 — End-of-utterance signaling: while the connection stays open, each
chunk is sent as a separate binary message (the binary messages of the
trace are exactly the chunk sequence, in order), each binary send is
followed by the `Thread.sleep(CHUNK_MS)` pacing delay, and after the final
chunk exactly one `end` control signal is sent, carried as the JSON text
message with type `end`, as the last client-to-server message of the
utterance. -/
theorem c5_end_signaling (pcm : List Nat) :
    (streamAudioFile (fun _ => true) pcm).filterMap binaryData =
      streamChunks BYTES_PER_CHUNK pcm ∧
    (streamAudioFile (fun _ => true) pcm).getLast? =
      some (ClientEvent.sendText endJson) ∧
    (streamAudioFile (fun _ => true) pcm).filter isTextMsg =
      [ClientEvent.sendText endJson] ∧
    endJson = "\x7b\"type\":\"end\"\x7d" ∧
    (∀ (j : Nat) (d : List Nat),
      (streamAudioFile (fun _ => true) pcm).get? j =
        some (ClientEvent.sendBinary d) →
      (streamAudioFile (fun _ => true) pcm).get? (j + 1) =
        some (ClientEvent.sleepMs CHUNK_MS)) := by
  refine ⟨?_, ?_, ?_, rfl, ?_⟩
  · exact trace_filterMap_binary _ _ _
  · rw [streamAudioFile, streamEventsFrom]
    exact List.getLast?_concat _
  · exact trace_filter_text _ _ _
  · exact trace_paced _ _ _

/-- C5 witness: streaming a 1-byte buffer produces the three-event trace
whose last message is the `end` JSON text and whose binary send is
followed by the pacing sleep. -/
theorem c5_end_signaling_witness :
    (streamAudioFile (fun _ => true) [9]).getLast? =
      some (ClientEvent.sendText endJson) ∧
    (streamAudioFile (fun _ => true) [9]).get? 1 =
      some (ClientEvent.sleepMs CHUNK_MS) := by
  have e : streamAudioFile (fun _ => true) [9] =
      [ClientEvent.sendBinary [9], ClientEvent.sleepMs 100,
        ClientEvent.sendText endJson] := by
    have hbpc : BYTES_PER_CHUNK = 3200 := rfl
    rw [streamAudioFile, streamEventsFrom,
      sendLoopFrom_cons _ _ _ _ (by rw [hbpc]; norm_num) (by simp), if_pos rfl]
    rw [hbpc, List.take_of_length_le (by norm_num),
      List.drop_eq_nil_of_le (by norm_num), sendLoopFrom_nil]
    rfl
  exact ⟨(c5_end_signaling [9]).2.1,
    (c5_end_signaling [9]).2.2.2.2 0 [9] (by rw [e]; rfl)⟩

/-! ## Close-observation of the send loop -/

theorem sendLoopFrom_true_shift (C : Nat) :
    ∀ (n : Nat) (buf : List Nat), buf.length ≤ n → ∀ i j,
      sendLoopFrom C (fun _ => true) buf i = sendLoopFrom C (fun _ => true) buf j := by
  intro n
  induction n with
  | zero =>
    intro buf hlen i j
    have hb : buf = [] := List.eq_nil_of_length_eq_zero (by omega)
    rw [hb, sendLoopFrom_nil, sendLoopFrom_nil]
  | succ n ih =>
    intro buf hlen i j
    by_cases hC : C = 0
    · rw [sendLoopFrom, dif_pos hC, sendLoopFrom, dif_pos hC]
    by_cases hb : buf = []
    · rw [hb, sendLoopFrom_nil, sendLoopFrom_nil]
    · have hbl : 1 ≤ buf.length := by
        cases buf with
        | nil => exact absurd rfl hb
        | cons a l => simp
      rw [sendLoopFrom_cons C _ buf i hC hb, sendLoopFrom_cons C _ buf j hC hb,
        if_pos rfl, if_pos rfl,
        ih (buf.drop C) (by simp [List.length_drop]; omega) (i + 1) (j + 1)]

theorem sendLoopFrom_closedAt (C : Nat) (hC : 0 < C) (closedAt : Nat) :
    ∀ (n : Nat) (buf : List Nat), buf.length ≤ n → ∀ i,
      sendLoopFrom C (fun k => decide (k < closedAt)) buf i =
        (sendLoopFrom C (fun _ => true) buf i).take (closedAt - i) := by
  intro n
  induction n with
  | zero =>
    intro buf hlen i
    have hb : buf = [] := List.eq_nil_of_length_eq_zero (by omega)
    rw [hb, sendLoopFrom_nil, sendLoopFrom_nil]
    simp
  | succ n ih =>
    intro buf hlen i
    by_cases hb : buf = []
    · rw [hb, sendLoopFrom_nil, sendLoopFrom_nil]
      simp
    · have hbl : 1 ≤ buf.length := by
        cases buf with
        | nil => exact absurd rfl hb
        | cons a l => simp
      rw [sendLoopFrom_cons C _ buf i (by omega) hb,
        sendLoopFrom_cons C _ buf i (by omega) hb, if_pos rfl]
      by_cases hlt : i < closedAt
      · rw [if_pos (by simpa using hlt)]
        have hsub : closedAt - i = (closedAt - (i + 1)) + 1 := by omega
        rw [hsub, List.take_succ_cons,
          ih (buf.drop C) (by simp [List.length_drop]; omega) (i + 1)]
      · rw [if_neg (by simpa using hlt)]
        have hsub : closedAt - i = 0 := by omega
        rw [hsub, List.take_zero]

/-- C6 — Close terminates the send loop: if the closed state of the
transport is observed from loop iteration `closedAt` onwards (the loop
condition samples the `connected` flag once per iteration, before each
send), then the loop sends exactly the first `closedAt` chunks — no binary
audio chunk is sent at or after the iteration that observes the close, and
in particular the number of sends is at most `closedAt`: the loop exits at
that check (within one pacing interval of the close) rather than
continuing to iterate. -/
theorem c6_close_terminates_send_loop (closedAt : Nat) (pcm : List Nat) :
    sendLoopFrom BYTES_PER_CHUNK (fun i => decide (i < closedAt)) pcm 0 =
      (streamChunks BYTES_PER_CHUNK pcm).take closedAt ∧
    (sendLoopFrom BYTES_PER_CHUNK (fun i => decide (i < closedAt)) pcm 0).length ≤
      closedAt := by
  have hC : 0 < BYTES_PER_CHUNK := by
    norm_num [BYTES_PER_CHUNK, SAMPLES_PER_CHUNK, SAMPLE_RATE, CHUNK_MS,
      BITS_PER_SAMPLE]
  have h := sendLoopFrom_closedAt BYTES_PER_CHUNK hC closedAt pcm.length pcm le_rfl 0
  rw [Nat.sub_zero] at h
  refine ⟨h, ?_⟩
  rw [h, List.length_take]
  exact Nat.min_le_left _ _

/-! ## Session lifecycle claims -/

/-- C7 — Connect failure semantics: `run()` either yields a connected
session (and only then streams) or fails with the connect error; if the
WebSocket handshake has not completed within the 10-second
`connectBlocking` timeout — in particular if it never completes — the
operation fails and never proceeds to stream on an unconnected session. -/
theorem c7_connect_failure_semantics (handshakeSeconds : Option Nat)
    (pcm : List Nat) :
    CONNECT_TIMEOUT_SECONDS = 10 ∧
    ((∃ ev, runSession handshakeSeconds pcm = .session ev) ∨
      runSession handshakeSeconds pcm = .failed "Failed to connect to server") ∧
    (handshakeSeconds = none →
      runSession handshakeSeconds pcm = .failed "Failed to connect to server") ∧
    (∀ t, handshakeSeconds = some t → CONNECT_TIMEOUT_SECONDS < t →
      runSession handshakeSeconds pcm = .failed "Failed to connect to server") ∧
    (∀ ev, runSession handshakeSeconds pcm = .session ev →
      connectBlocking handshakeSeconds = true) := by
  refine ⟨rfl, ?_, ?_, ?_, ?_⟩
  · by_cases hcb : connectBlocking handshakeSeconds
    · exact Or.inl ⟨_, by rw [runSession, if_pos hcb]⟩
    · exact Or.inr (by rw [runSession, if_neg hcb])
  · intro hnone
    rw [runSession, hnone]
    rfl
  · intro t ht htime
    rw [runSession, ht]
    rw [if_neg (by simp [connectBlocking]; omega)]
  · intro ev hev
    by_cases hcb : connectBlocking handshakeSeconds
    · exact hcb
    · rw [runSession, if_neg hcb] at hev
      cases hev

/-- C7 witness: an 11-second handshake exceeds the 10-second timeout and
`run()` fails with the connect error. -/
theorem c7_connect_failure_semantics_witness :
    runSession (some 11) [] = .failed "Failed to connect to server" :=
  (c7_connect_failure_semantics (some 11) []).2.2.2.1 11 rfl
    (by norm_num [CONNECT_TIMEOUT_SECONDS])

/-- C8 — Read-timeout teardown: if the `doneLatch` (released by
`onEndOfSpeech` or by `onClose`) is not released within the 120-second
session read timeout — in particular if it is never released — the wait
phase reports the timeout (the `Timed out waiting for end-of-speech`
warning surfaced to the consumer), the transport is closed
(`ws.closeBlocking()`), and the session waits at most 120 seconds rather
than indefinitely. -/
theorem c8_read_timeout_teardown :
    READ_TIMEOUT_SECONDS = 120 ∧
    (∀ (rel : Option Nat) (t : Nat), rel = some t → READ_TIMEOUT_SECONDS < t →
      (awaitCompletion rel).timedOut = true ∧
      (awaitCompletion rel).transportClosed = true ∧
      (awaitCompletion rel).waitedSeconds = READ_TIMEOUT_SECONDS) ∧
    ((awaitCompletion none).timedOut = true ∧
      (awaitCompletion none).transportClosed = true ∧
      (awaitCompletion none).waitedSeconds = READ_TIMEOUT_SECONDS) ∧
    (∀ rel : Option Nat, (awaitCompletion rel).waitedSeconds ≤
      READ_TIMEOUT_SECONDS) := by
  refine ⟨rfl, ?_, ⟨rfl, rfl, rfl⟩, ?_⟩
  · intro rel t hrel htime
    rw [hrel, awaitCompletion]
    rw [if_neg (by omega)]
    exact ⟨rfl, rfl, rfl⟩
  · intro rel
    match rel with
    | none => exact le_refl _
    | some t =>
      rw [awaitCompletion]
      by_cases ht : t ≤ READ_TIMEOUT_SECONDS
      · rw [if_pos ht]; exact ht
      · rw [if_neg ht]

/-- C8 witness: a latch released only after 121 seconds exceeds the
timeout — the session reports the timeout, closes the transport, and
waited exactly the 120-second bound. -/
theorem c8_read_timeout_teardown_witness :
    (awaitCompletion (some 121)).timedOut = true ∧
    (awaitCompletion (some 121)).transportClosed = true ∧
    (awaitCompletion (some 121)).waitedSeconds = READ_TIMEOUT_SECONDS :=
  c8_read_timeout_teardown.2.1 (some 121) 121 rfl (by norm_num [READ_TIMEOUT_SECONDS])

end Bithuman
